import Mathlib

set_option maxRecDepth 8000

/-!
# YieldCurve backend — shallow embedding and verification

This file embeds the core of `backend/app.py` (treasury yield-curve
ingestion, storage, query endpoints and the order ledger) as executable
Lean definitions, and proves the behavioural claims about it.

Modelling conventions:
* Python `float` values that the program merely stores, compares and
  relabels are modelled as exact rationals (`ℚ`).  No claim under
  scrutiny depends on binary floating-point rounding.
* Python strings are modelled as `String` / `List Char`; the string
  operations used by the code (`replace`, `split`, `endswith`,
  `startswith`) are given direct executable models below.
* `datetime` is modelled by a `Date` structure with Python's documented
  calendar range (years 1–9999); operations that raise (`ValueError`,
  `OverflowError`) are `Option`-valued, `none` standing for the raised
  exception.
* Numeric-literal parsing models `float(...)` / `int(...)` on unsigned
  decimal literals, the format of the data and terms this program
  handles; `none` stands for `ValueError`.
-/

deriving instance DecidableEq for Except

namespace YieldCurve

/-! ## Characters, digits, and numeric-literal parsing -/

/-- Decimal digit check for a character. -/
def isDigitChar (c : Char) : Bool := 48 ≤ c.toNat && c.toNat ≤ 57

/-- Value of one decimal digit character. -/
def digitVal (c : Char) : Nat := c.toNat - 48

/-- Numeric value of a digit string (no validity check; callers check). -/
def digitsVal (cs : List Char) : Nat :=
  cs.foldl (fun a c => a * 10 + digitVal c) 0

/-- Model of Python `int(s)` on unsigned decimal literals: all characters
must be digits and there must be at least one. -/
def parseNat? (cs : List Char) : Option Nat :=
  if cs ≠ [] ∧ cs.all isDigitChar then some (digitsVal cs) else none

/-- Split a character list at every occurrence of `sep` (model of
Python `str.split(sep)` for a one-character separator). -/
def splitOnChar (sep : Char) : List Char → List (List Char)
  | [] => [[]]
  | c :: rest =>
    match splitOnChar sep rest with
    | [] => if c = sep then [[], []] else [[c]]
    | h :: t => if c = sep then [] :: h :: t else (c :: h) :: t

/-- Model of Python `float(s)` on unsigned decimal literals: digit
string with at most one `'.'`, at least one digit overall.  Returns the
exact rational value; `none` models `ValueError`. -/
def parseFloat? (cs : List Char) : Option ℚ :=
  match splitOnChar '.' cs with
  | [ip] =>
    if ip ≠ [] ∧ ip.all isDigitChar then some (mkRat (digitsVal ip) 1) else none
  | [ip, fp] =>
    if (ip ≠ [] ∨ fp ≠ []) ∧ ip.all isDigitChar ∧ fp.all isDigitChar then
      some (mkRat (digitsVal (ip ++ fp)) (10 ^ fp.length))
    else none
  | _ => none

/-- Left-to-right, non-overlapping removal of every occurrence of the
pattern `pat`: model of Python `s.replace(pat, "")`.  The fuel argument
only bounds recursion depth; `removeAll` supplies enough. -/
def removeAllAux (pat : List Char) : Nat → List Char → List Char
  | 0, s => s
  | _ + 1, [] => []
  | fuel + 1, c :: rest =>
    if pat ≠ [] ∧ pat.isPrefixOf (c :: rest) then
      removeAllAux pat fuel ((c :: rest).drop pat.length)
    else
      c :: removeAllAux pat fuel rest

/-- Model of Python `s.replace(pat, "")` for a non-empty pattern. -/
def removeAll (pat : List Char) (s : List Char) : List Char :=
  removeAllAux pat s.length s

/-- Model of Python `s.endswith(c)` for a one-character suffix. -/
def endsWithChar (c : Char) (s : List Char) : Bool := s.getLast? = some c

/-! ## The calendar (model of Python `datetime`, date portion)

Python's `datetime` supports years 1–9999; `replace` and date
arithmetic that leave this range raise, which the model renders as
`none`. -/

structure Date where
  year : Nat
  month : Nat
  day : Nat
deriving Repr, DecidableEq

/-- Gregorian leap-year rule (as implemented by Python `calendar`). -/
def isLeapYear (y : Nat) : Bool :=
  y % 4 = 0 && (y % 100 ≠ 0 || y % 400 = 0)

/-- Number of days of month `m` in year `y`. -/
def daysInMonth (y m : Nat) : Nat :=
  if m = 2 then (if isLeapYear y then 29 else 28)
  else if m = 4 ∨ m = 6 ∨ m = 9 ∨ m = 11 then 30
  else 31

/-- Validity of a date in Python's `datetime` range. -/
def isValidDate (d : Date) : Bool :=
  1 ≤ d.year && d.year ≤ 9999 && 1 ≤ d.month && d.month ≤ 12 &&
    1 ≤ d.day && d.day ≤ daysInMonth d.year d.month

/-- The day after `d`; `none` past the end of the supported range
(model of the `OverflowError` of date arithmetic). -/
def nextDay (d : Date) : Option Date :=
  if d.day < daysInMonth d.year d.month then some ⟨d.year, d.month, d.day + 1⟩
  else if d.month < 12 then some ⟨d.year, d.month + 1, 1⟩
  else if d.year < 9999 then some ⟨d.year + 1, 1, 1⟩
  else none

/-- Model of `d + timedelta(days=n)` for `n ≥ 0`. -/
def addDays (d : Date) : Nat → Option Date
  | 0 => some d
  | n + 1 => (addDays d n).bind nextDay

/-- Model of `d.replace(year=y)`: the new year must be in range and the
day must exist in the unchanged month of the new year, else
`ValueError` (`none`). -/
def replaceYear (d : Date) (y : Nat) : Option Date :=
  if 1 ≤ y ∧ y ≤ 9999 ∧ d.day ≤ daysInMonth y d.month then
    some ⟨y, d.month, d.day⟩
  else none

/-! ## Date strings -/

/-- Decimal digit characters of a natural number (fuel-based so that it
reduces definitionally; the fuel is always sufficient). -/
def natToCharsAux : Nat → Nat → List Char
  | 0, _ => []
  | fuel + 1, n =>
    if n < 10 then [Char.ofNat (48 + n)]
    else natToCharsAux fuel (n / 10) ++ [Char.ofNat (48 + n % 10)]

/-- Decimal digit characters of a natural number. -/
def natToChars (n : Nat) : List Char := natToCharsAux (n + 1) n

/-- Zero-pad on the left to width `w`. -/
def padZero (w : Nat) (cs : List Char) : List Char :=
  List.replicate (w - cs.length) '0' ++ cs

/-- Model of `datetime.strftime("%Y-%m-%d")`. -/
def formatDate (d : Date) : String :=
  ⟨padZero 4 (natToChars d.year) ++ '-' ::
    (padZero 2 (natToChars d.month) ++ '-' :: padZero 2 (natToChars d.day))⟩

/-- Model of `datetime.fromisoformat` on `YYYY-MM-DD` date strings:
three dash-separated all-digit groups of widths 4, 2, 2 denoting a
valid calendar date; anything else raises (`none`). -/
def parseDate (cs : List Char) : Option Date :=
  match splitOnChar '-' cs with
  | [ys, ms, ds] =>
    if ys.length = 4 ∧ ms.length = 2 ∧ ds.length = 2 ∧
        ys.all isDigitChar ∧ ms.all isDigitChar ∧ ds.all isDigitChar then
      let d : Date := ⟨digitsVal ys, digitsVal ms, digitsVal ds⟩
      if isValidDate d then some d else none
    else none
  | _ => none

/-- Multiply a rational by a natural number on the raw fraction
(definitionally reducible; equal to `q * n`, see `ratMulNat_eq`). -/
def ratMulNat (q : ℚ) (n : Nat) : ℚ := mkRat (q.num * n) q.den

/-! ## `calculate_maturity_date` (app.py lines 268–288)

```python
def calculate_maturity_date(issue_date: str, term: str) -> str:
    issue = datetime.fromisoformat(issue_date.replace('T00:00:00', ''))
    if term.endswith("m"):
        months = float(term.replace("m", ""))
        days = int(months * 30)
        maturity = issue + timedelta(days=days)
    elif term.endswith("Y"):
        years = int(term.replace("Y", ""))
        maturity = issue.replace(year=issue.year + years)
    else:
        maturity = issue.replace(year=issue.year + 1)
    return maturity.strftime("%Y-%m-%d")
```

`int(months * 30)` truncates toward zero; for the unsigned `months`
values the model parses this is the floor. -/
def calculate_maturity_date (issue_date term : String) : Option String :=
  (parseDate (removeAll "T00:00:00".data issue_date.data)).bind fun issue =>
    if endsWithChar 'm' term.data then
      (parseFloat? (removeAll ['m'] term.data)).bind fun months =>
        (addDays issue (⌊ratMulNat months 30⌋).toNat).map formatDate
    else if endsWithChar 'Y' term.data then
      (parseNat? (removeAll ['Y'] term.data)).bind fun years =>
        (replaceYear issue (issue.year + years)).map formatDate
    else
      (replaceYear issue (issue.year + 1)).map formatDate

/-! ## Data model

`ChartDataPoint` rows (the Curve Point Store) and `Order` rows (the
Order Ledger).  The autoincrement `id` columns are omitted: the claims
speak about observable row contents.  `purchase_timestamp` is modelled
as a natural number standing for the wall-clock instant
`datetime.now().isoformat()` assigned at creation. -/

structure ChartDataPoint where
  date : String
  term : String
  yield_value : ℚ
deriving Repr, DecidableEq

structure Order where
  term : String
  yield_value : ℚ
  quantity : ℚ
  issue_date : String
  purchase_timestamp : Nat
  maturity_date : String
deriving Repr, DecidableEq

/-- Request body of `POST /orders/` (`OrderCreate`). -/
structure OrderCreate where
  term : String
  quantity : ℚ
deriving Repr, DecidableEq

/-! ## The Curve Transformer (app.py lines 78–107) -/

/-- `label_map` of `transform_and_store_treasury_data`. -/
def LABEL_MAP : List (String × String) :=
  [("BC_1MONTH", "1m"), ("BC_1_5MONTH", "1.5m"), ("BC_2MONTH", "2m"),
   ("BC_3MONTH", "3m"), ("BC_4MONTH", "4m"), ("BC_6MONTH", "6m"),
   ("BC_1YEAR", "1Y"), ("BC_2YEAR", "2Y"), ("BC_3YEAR", "3Y"),
   ("BC_5YEAR", "5Y"), ("BC_7YEAR", "7Y"), ("BC_10YEAR", "10Y"),
   ("BC_20YEAR", "20Y"), ("BC_30YEAR", "30Y")]

/-- First-match association lookup (model of Python dict access on the
insertion-ordered `label_map`). -/
def lookupKey (k : String) : List (String × String) → Option String
  | [] => none
  | (k', v) :: rest => if k = k' then some v else lookupKey k rest

/-- `transform_and_store_treasury_data`: for each raw `BC_*` field, keep
it only if its key is in `LABEL_MAP` and its value is non-null, emitting
a relabeled `ChartDataPoint` with the same yield; the emitted rows are
what the loop `session.add`s. -/
def transform_and_store_treasury_data
    (date_value : String) (bc_values : List (String × Option ℚ)) :
    List ChartDataPoint :=
  bc_values.filterMap fun kv =>
    match lookupKey kv.1 LABEL_MAP, kv.2 with
    | some t, some y => some ⟨date_value, t, y⟩
    | _, _ => none

/-! ## The Document Parser and Ingestion Coordinator
     (app.py lines 109–162) -/

/-- One child element of an `m:properties` block: a (namespaced) tag
and optional text content. -/
structure XmlField where
  tag : String
  text : Option String
deriving Repr, DecidableEq

/-- An `m:properties` block. -/
structure XmlProps where
  children : List XmlField
deriving Repr, DecidableEq

/-- An `atom:entry`: optional `atom:content`, which optionally holds an
`m:properties` block. -/
structure XmlEntry where
  content : Option XmlProps
deriving Repr, DecidableEq

/-- The Microsoft OData namespace bound to prefix `d` in `app.py`. -/
def dNamespace : String := "http://schemas.microsoft.com/ado/2007/08/dataservices"

/-- `"{%s}BC_" % ns["d"]`: the namespaced tag prefix tested by
`child.tag.startswith`. -/
def bcTagStart : String := "\x7b" ++ dNamespace ++ "\x7dBC_"

/-- The namespaced tag of the `d:NEW_DATE` element. -/
def newDateTag : String := "\x7b" ++ dNamespace ++ "\x7dNEW_DATE"

/-- `child.tag.startswith("{%s}BC_" % ns["d"])`. -/
def isBCTag (tag : String) : Bool := bcTagStart.data.isPrefixOf tag.data

/-- `child.tag.split("}", 1)[1]`: strip the `{namespace}` prefix. -/
def stripNamespaceTag (tag : String) : String :=
  ⟨(tag.data.dropWhile (· ≠ '\x7d')).drop 1⟩

/-- The raised `ValueError` of `float(...)` on non-numeric field text,
which aborts the ingestion run. -/
inductive IngestErr where
  | valueError
deriving Repr, DecidableEq

/-- Insertion into a Python dict rendered as an insertion-ordered
association list: an existing key keeps its position and gets the new
value, a new key is appended. -/
def dictInsert (m : List (String × Option ℚ)) (k : String) (v : Option ℚ) :
    List (String × Option ℚ) :=
  if m.any (fun p => p.1 = k) then
    m.map fun p => if p.1 = k then (k, v) else p
  else m ++ [(k, v)]

/-- The `bc_values` extraction loop (app.py lines 141–146): for each
`BC_`-prefixed child, `float(str(child.text)) if child.text else None`;
a non-empty, non-numeric text raises `ValueError` and aborts. -/
def extractBCValues :
    List XmlField → List (String × Option ℚ) →
    Except IngestErr (List (String × Option ℚ))
  | [], acc => .ok acc
  | f :: fs, acc =>
    if isBCTag f.tag then
      match f.text with
      | some t =>
        if t ≠ "" then
          match parseFloat? t.data with
          | some q => extractBCValues fs (dictInsert acc (stripNamespaceTag f.tag) (some q))
          | none => .error .valueError
        else extractBCValues fs (dictInsert acc (stripNamespaceTag f.tag) none)
      | none => extractBCValues fs (dictInsert acc (stripNamespaceTag f.tag) none)
    else extractBCValues fs acc

/-- Processing of one `atom:entry` (app.py lines 130–149): entries
without content, properties, or a truthy `NEW_DATE` text are skipped;
otherwise the `BC_` values are extracted and transformed. -/
def processEntry (e : XmlEntry) : Except IngestErr (List ChartDataPoint) :=
  match e.content with
  | none => .ok []
  | some props =>
    match (props.children.find? (fun f => f.tag = newDateTag)).bind (·.text) with
    | some dateValue =>
      if dateValue ≠ "" then
        (extractBCValues props.children []).map fun bc =>
          transform_and_store_treasury_data dateValue bc
      else .ok []
    | none => .ok []

/-- Processing of all entries in document order, concatenating the
stored points. -/
def processEntries : List XmlEntry → Except IngestErr (List ChartDataPoint)
  | [] => .ok []
  | e :: es => do
    let ps ← processEntry e
    let rest ← processEntries es
    pure (ps ++ rest)

/-- The delete loop of the ingestion run: every existing record is
deleted. -/
def deleteAll : List ChartDataPoint → List ChartDataPoint
  | [] => []
  | _ :: rest => deleteAll rest

/-- One ingestion run (app.py lines 122–151) over an already
well-formed document: clear the whole `ChartDataPoint` table, then
repopulate it from the document's entries.  An `IngestErr` models the
uncaught exception that aborts startup. -/
def runIngestion (doc : List XmlEntry) (store : List ChartDataPoint) :
    Except IngestErr (List ChartDataPoint) :=
  (processEntries doc).map fun pts => deleteAll store ++ pts

/-! ## The Query Service (app.py lines 178–265) -/

/-- Strict lexicographic byte order on character lists: the order the
`ORDER BY date DESC` queries use on the stored (ASCII) date strings. -/
def charListLt : List Char → List Char → Bool
  | [], [] => false
  | [], _ :: _ => true
  | _ :: _, [] => false
  | a :: as, b :: bs =>
    if a.toNat < b.toNat then true
    else if a.toNat = b.toNat then charListLt as bs
    else false

/-- `dateLt a b`: date string `a` sorts strictly before `b`. -/
def dateLt (a b : String) : Bool := charListLt a.data b.data

/-- `select(ChartDataPoint).order_by(desc(ChartDataPoint.date))).first()`:
a record carrying the maximal date (the first such record, among
ties). -/
def latestRecord (store : List ChartDataPoint) : Option ChartDataPoint :=
  store.foldl
    (fun acc p =>
      match acc with
      | none => some p
      | some q => if dateLt q.date p.date then some p else acc)
    none

/-- The canonical term order used by the chart-sorting code
(`order` in `read_root` / `read_treasury_by_date`), which is also the
valid-term list of `OrderCreate` (TERM_SET). -/
def TERM_SET : List String :=
  ["1m", "1.5m", "2m", "3m", "4m", "6m", "1Y", "2Y", "3Y", "5Y", "7Y",
   "10Y", "20Y", "30Y"]

/-- Position of a term in a list (first match). -/
def indexIn (t : String) : List String → Nat
  | [] => 0
  | x :: xs => if t = x then 0 else indexIn t xs + 1

/-- `order.index(x["term"]) if x["term"] in order else 999`. -/
def sortKey (t : String) : Nat :=
  if t ∈ TERM_SET then indexIn t TERM_SET else 999

/-- `chart_data.sort(key=...)`: Python's stable sort by the canonical
key, modelled by the (stable) `List.mergeSort`. -/
def sortChartData (l : List (String × ℚ)) : List (String × ℚ) :=
  l.mergeSort fun a b => sortKey a.1 ≤ sortKey b.1

/-- Response of `GET /` and `GET /treasury/{date}`. -/
inductive CurveResponse where
  | error (msg : String)
  | ok (date : String) (chart_data : List (String × ℚ))
deriving Repr, DecidableEq

/-- `read_root` (app.py lines 178–213): latest yield curve, or an
`{error}` body when the Store is empty. -/
def read_root (store : List ChartDataPoint) : CurveResponse :=
  match latestRecord store with
  | none => .error "No treasury data found"
  | some rec =>
    let latest_date := rec.date
    let pts := store.filter fun p => p.date = latest_date
    if pts = [] then .error "No chart data found for latest date"
    else .ok latest_date (sortChartData (pts.map fun p => (p.term, p.yield_value)))

/-- `read_treasury_by_date` (app.py lines 225–250): curve for one date,
404 (`error`) when no points exist for it. -/
def read_treasury_by_date (date : String) (store : List ChartDataPoint) :
    CurveResponse :=
  let pts := store.filter fun p => p.date = date
  if pts = [] then .error "No data found for specified date"
  else .ok date (sortChartData (pts.map fun p => (p.term, p.yield_value)))

/-! ## The Order Ledger (app.py lines 46–61, 268–349) -/

/-- The error taxonomy of order creation: `validation` is the 422 of
the `OrderCreate` validators, `noData` / `unknownTerm` the two 400s of
`create_order`, and `internal` the uncaught exception of
`calculate_maturity_date` on an unusable stored date. -/
inductive OrderErr where
  | validation
  | noData
  | unknownTerm
  | internal
deriving Repr, DecidableEq

/-- `create_order` (app.py lines 290–334) together with the `OrderCreate`
validators that run before it: term membership, quantity bounds, data
presence, term presence at the latest date; on success the order is
appended to the ledger, which is returned unchanged otherwise. -/
def create_order (input : OrderCreate) (store : List ChartDataPoint)
    (orders : List Order) (now : Nat) :
    Except OrderErr Order × List Order :=
  if input.term ∉ TERM_SET then (.error .validation, orders)
  else if input.quantity ≤ 0 ∨ input.quantity > 10000000 then (.error .validation, orders)
  else
    match latestRecord store with
    | none => (.error .noData, orders)
    | some latest_date_record =>
      match (store.filter fun p =>
          p.date = latest_date_record.date ∧ p.term = input.term).head? with
      | none => (.error .unknownTerm, orders)
      | some term_exists =>
        let current_yield := term_exists.yield_value
        let issue_date : String := ⟨latest_date_record.date.data.takeWhile (· ≠ 'T')⟩
        match calculate_maturity_date issue_date input.term with
        | none => (.error .internal, orders)
        | some maturity_date =>
          let db_order : Order :=
            ⟨input.term, current_yield, input.quantity, issue_date, now, maturity_date⟩
          (.ok db_order, orders ++ [db_order])

/-- `get_orders` (app.py lines 336–349): pagination over the ledger
ordered by `purchase_timestamp` descending. -/
def get_orders (orders : List Order) (offset limit : Nat) : List Order :=
  ((orders.mergeSort fun a b => b.purchase_timestamp ≤ a.purchase_timestamp).drop
    offset).take limit

/-! ## Helper lemmas -/

theorem lookupKey_mem {k v : String} :
    ∀ {m : List (String × String)}, lookupKey k m = some v → (k, v) ∈ m := by
  intro m
  induction m with
  | nil => intro h; simp [lookupKey] at h
  | cons p rest ih =>
    intro h
    rw [lookupKey] at h
    split at h
    · next heq => cases h; simp [heq]
    · exact List.mem_cons_of_mem _ (ih h)

theorem LABEL_MAP_snd_inj :
    ∀ p ∈ LABEL_MAP, ∀ q ∈ LABEL_MAP, p.2 = q.2 → p.1 = q.1 := by decide

theorem lookupKey_LABEL_MAP_inj {k k' t : String}
    (h : lookupKey k LABEL_MAP = some t) (h' : lookupKey k' LABEL_MAP = some t) :
    k = k' :=
  LABEL_MAP_snd_inj (k, t) (lookupKey_mem h) (k', t) (lookupKey_mem h') rfl

theorem charListLt_irrefl : ∀ a : List Char, charListLt a a = false := by
  intro a
  induction a with
  | nil => rfl
  | cons x xs ih => simp [charListLt, ih]

theorem charListLt_trans :
    ∀ {a b c : List Char}, charListLt a b = true → charListLt b c = true →
      charListLt a c = true := by
  intro a
  induction a with
  | nil =>
    intro b c hab hbc
    cases b with
    | nil => simp [charListLt] at hab
    | cons y ys =>
      cases c with
      | nil => simp [charListLt] at hbc
      | cons z zs => rfl
  | cons x xs ih =>
    intro b c hab hbc
    cases b with
    | nil => simp [charListLt] at hab
    | cons y ys =>
      cases c with
      | nil => simp [charListLt] at hbc
      | cons z zs =>
        rw [charListLt] at hab hbc ⊢
        split at hab
        · next hxy =>
          split at hbc
          · next hyz => rw [if_pos (by omega)]
          · split at hbc
            · next hyz => rw [if_pos (by omega)]
            · exact absurd hbc (by simp)
        · split at hab
          · next hxy =>
            split at hbc
            · next hyz => rw [if_pos (by omega)]
            · split at hbc
              · next hyz =>
                rw [if_neg (by omega), if_pos (by omega)]
                exact ih hab hbc
              · exact absurd hbc (by simp)
          · exact absurd hab (by simp)

theorem charListLt_trichot :
    ∀ a b : List Char, charListLt a b = true ∨ a = b ∨ charListLt b a = true := by
  intro a
  induction a with
  | nil =>
    intro b
    cases b with
    | nil => right; left; rfl
    | cons y ys => left; rfl
  | cons x xs ih =>
    intro b
    cases b with
    | nil => right; right; rfl
    | cons y ys =>
      by_cases hlt : x.toNat < y.toNat
      · left; rw [charListLt, if_pos hlt]
      · by_cases heq : x.toNat = y.toNat
        · have hchar : x = y := Char.eq_of_val_eq (UInt32.toNat.inj heq)
          rcases ih ys with h | h | h
          · left; rw [charListLt, if_neg (by omega), if_pos heq]; exact h
          · right; left; rw [hchar, h]
          · right; right; rw [charListLt, if_neg (by omega), if_pos (by omega)]
            exact h
        · right; right
          rw [charListLt, if_pos (by omega)]

/-- The folding step of `latestRecord`. -/
theorem latestRecord_fold
    (s : List ChartDataPoint) :
    ∀ p : ChartDataPoint,
      ∃ r, s.foldl
          (fun acc q =>
            match acc with
            | none => some q
            | some q' => if dateLt q'.date q.date then some q else acc)
          (some p) = some r ∧ (r = p ∨ r ∈ s) ∧
          dateLt r.date p.date = false ∧ ∀ q ∈ s, dateLt r.date q.date = false := by
  induction s with
  | nil =>
    intro p
    exact ⟨p, rfl, Or.inl rfl, charListLt_irrefl _, by simp⟩
  | cons x xs ih =>
    intro p
    by_cases hpx : dateLt p.date x.date = true
    · obtain ⟨r, hr, hmem, hrx, hall⟩ := ih x
      refine ⟨r, ?_, ?_, ?_, ?_⟩
      · simpa [hpx] using hr
      · rcases hmem with h | h
        · exact Or.inr (by simp [h])
        · exact Or.inr (List.mem_cons_of_mem _ h)
      · by_contra hc
        have hrp : dateLt r.date p.date = true := by
          cases h : dateLt r.date p.date
          · exact absurd h hc
          · rfl
        exact absurd (charListLt_trans hrp hpx) (by simp [dateLt] at hrx ⊢; exact hrx)
      · intro q hq
        rcases List.mem_cons.mp hq with h | h
        · rw [h]; exact hrx
        · exact hall q h
    · have hpx' : dateLt p.date x.date = false := by
        cases h : dateLt p.date x.date
        · rfl
        · exact absurd h hpx
      obtain ⟨r, hr, hmem, hrp, hall⟩ := ih p
      refine ⟨r, ?_, ?_, hrp, ?_⟩
      · simpa [hpx'] using hr
      · rcases hmem with h | h
        · exact Or.inl h
        · exact Or.inr (List.mem_cons_of_mem _ h)
      · intro q hq
        rcases List.mem_cons.mp hq with h | h
        · subst h
          by_contra hc
          have hrq : dateLt r.date q.date = true := by
            cases h' : dateLt r.date q.date
            · exact absurd h' hc
            · rfl
          rcases charListLt_trichot q.date.data p.date.data with ht | ht | ht
          · exact absurd (charListLt_trans hrq ht)
              (by simp [dateLt] at hrp ⊢; exact hrp)
          · have hteq : q.date.data = p.date.data := ht
            have : dateLt r.date p.date = true := by
              unfold dateLt at hrq ⊢
              rw [← hteq]
              exact hrq
            simp [this] at hrp
          · exact absurd ht (by simp [dateLt] at hpx' ⊢; exact hpx')
        · exact hall q h

theorem latestRecord_eq_none_iff (store : List ChartDataPoint) :
    latestRecord store = none ↔ store = [] := by
  cases store with
  | nil => simp [latestRecord]
  | cons x xs =>
    obtain ⟨r, hr, _, _, _⟩ := latestRecord_fold xs x
    simp only [latestRecord, List.foldl_cons, hr]
    simp

theorem latestRecord_spec {store : List ChartDataPoint} {r : ChartDataPoint}
    (h : latestRecord store = some r) :
    r ∈ store ∧ ∀ q ∈ store, dateLt r.date q.date = false := by
  cases store with
  | nil => simp [latestRecord] at h
  | cons x xs =>
    obtain ⟨r', hr', hmem, hrx, hall⟩ := latestRecord_fold xs x
    rw [latestRecord, List.foldl_cons] at h
    rw [hr'] at h
    cases h
    refine ⟨?_, ?_⟩
    · rcases hmem with h | h
      · simp [h]
      · exact List.mem_cons_of_mem _ h
    · intro q hq
      rcases List.mem_cons.mp hq with h | h
      · rw [h]; exact hrx
      · exact hall q h

theorem deleteAll_eq_nil : ∀ s : List ChartDataPoint, deleteAll s = [] := by
  intro s
  induction s with
  | nil => rfl
  | cons x xs ih => rw [deleteAll, ih]

theorem mem_transform_iff (date : String) (bc : List (String × Option ℚ))
    (p : ChartDataPoint) :
    p ∈ transform_and_store_treasury_data date bc ↔
      p.date = date ∧
        ∃ k, lookupKey k LABEL_MAP = some p.term ∧ (k, some p.yield_value) ∈ bc := by
  rw [transform_and_store_treasury_data, List.mem_filterMap]
  constructor
  · rintro ⟨⟨k, v⟩, hmem, hg⟩
    rcases hlk : lookupKey k LABEL_MAP with _ | t
    · simp [hlk] at hg
    · rcases v with _ | y
      · simp [hlk] at hg
      · simp only [hlk] at hg
        cases hg
        exact ⟨rfl, k, hlk, hmem⟩
  · rintro ⟨hdate, k, hlk, hmem⟩
    refine ⟨(k, some p.yield_value), hmem, ?_⟩
    simp only [hlk]
    cases p
    cases hdate
    rfl

theorem transform_terms_nodup (date : String) :
    ∀ (bc : List (String × Option ℚ)), (bc.map Prod.fst).Nodup →
      ((transform_and_store_treasury_data date bc).map (fun p => p.term)).Nodup := by
  intro bc
  induction bc with
  | nil => intro _; simp [transform_and_store_treasury_data]
  | cons kv rest ih =>
    intro hnd
    rw [List.map_cons, List.nodup_cons] at hnd
    obtain ⟨hk, hrest⟩ := hnd
    rw [transform_and_store_treasury_data, List.filterMap_cons]
    rcases hg : (match lookupKey kv.1 LABEL_MAP, kv.2 with
      | some t, some y => some (⟨date, t, y⟩ : ChartDataPoint)
      | _, _ => none) with _ | p
    · rw [hg]
      exact ih hrest
    · rw [hg, List.map_cons, List.nodup_cons]
      refine ⟨?_, ih hrest⟩
      intro hmem
      rw [List.mem_map] at hmem
      obtain ⟨p', hp', hterm⟩ := hmem
      rw [show List.filterMap _ rest = transform_and_store_treasury_data date rest
        from rfl, mem_transform_iff] at hp'
      obtain ⟨_, k', hlk', hmem'⟩ := hp'
      rcases hlk : lookupKey kv.1 LABEL_MAP with _ | t
      · simp [hlk] at hg
      · rcases hv : kv.2 with _ | y
        · simp [hlk, hv] at hg
        · simp only [hlk, hv] at hg
          cases hg
          rw [hterm] at hlk'
          have : k' = kv.1 := lookupKey_LABEL_MAP_inj hlk' hlk
          subst this
          exact hk (by
            rw [List.mem_map]
            exact ⟨(kv.1, some p'.yield_value), hmem', rfl⟩)

/-- C1: fields whose value is null and fields whose key is not in
LABEL_MAP produce no output point; every recognized key with a non-null
value produces exactly one output point, relabeled via LABEL_MAP with
the same yield value; and the scenario
`{BC_1MONTH: 4.20, BC_UNKNOWN: 1.0, BC_10YEAR: null}` yields exactly
the single point `(term "1m", yield_value 4.20)`. -/
theorem C1_transformer_drops_null_and_unknown_keeps_recognized
    (date : String) (bc : List (String × Option ℚ))
    (hnd : (bc.map Prod.fst).Nodup) :
    (∀ p : ChartDataPoint,
        p ∈ transform_and_store_treasury_data date bc ↔
          p.date = date ∧
            ∃ k, lookupKey k LABEL_MAP = some p.term ∧
              (k, some p.yield_value) ∈ bc) ∧
    ((transform_and_store_treasury_data date bc).map (fun p => p.term)).Nodup ∧
    transform_and_store_treasury_data "2025-06-02"
        [("BC_1MONTH", some (42/10)), ("BC_UNKNOWN", some 1), ("BC_10YEAR", none)]
      = [⟨"2025-06-02", "1m", 42/10⟩] :=
  ⟨fun p => mem_transform_iff date bc p, transform_terms_nodup date bc hnd, rfl⟩

theorem C1_witness :
    (([("BC_1MONTH", some (4:ℚ)), ("BC_10YEAR", none)].map
        (Prod.fst : String × Option ℚ → String)).Nodup) ∧
    ((∀ p : ChartDataPoint,
        p ∈ transform_and_store_treasury_data "2025-06-02"
            [("BC_1MONTH", some 4), ("BC_10YEAR", none)] ↔
          p.date = "2025-06-02" ∧
            ∃ k, lookupKey k LABEL_MAP = some p.term ∧
              (k, some p.yield_value) ∈
                [("BC_1MONTH", some 4), ("BC_10YEAR", none)]) ∧
      ((transform_and_store_treasury_data "2025-06-02"
          [("BC_1MONTH", some 4), ("BC_10YEAR", none)]).map
            (fun p => p.term)).Nodup ∧
      transform_and_store_treasury_data "2025-06-02"
          [("BC_1MONTH", some (42/10)), ("BC_UNKNOWN", some 1), ("BC_10YEAR", none)]
        = [⟨"2025-06-02", "1m", 42/10⟩]) :=
  ⟨by decide,
   C1_transformer_drops_null_and_unknown_keeps_recognized "2025-06-02"
     [("BC_1MONTH", some 4), ("BC_10YEAR", none)] (by decide)⟩

/-- C6: on an empty Store the latest-curve query fails with the
not-found error body; it never returns a yield curve for an empty
Store. -/
theorem C6_latest_fails_on_empty_store :
    read_root [] = .error "No treasury data found" ∧
    ∀ store : List ChartDataPoint, store = [] →
      ∀ ld chart, read_root store ≠ .ok ld chart := by
  constructor
  · rfl
  · rintro store rfl ld chart h
    simp [read_root, latestRecord] at h

theorem C6_witness :
    read_root [] ≠ .ok "2025-01-02" [("1m", (4:ℚ))] :=
  C6_latest_fails_on_empty_store.2 [] rfl "2025-01-02" [("1m", 4)]

/-- C8: an ingestion run clears the whole table and repopulates it only
from the fetched document, so a successful run's result is independent
of the prior store contents, and re-running on the same document leaves
the store unchanged. -/
theorem C8_ingestion_replaces_not_appends
    (doc : List XmlEntry) (store store' : List ChartDataPoint)
    (h : runIngestion doc store = .ok store') :
    runIngestion doc store' = .ok store' ∧
    ∀ other : List ChartDataPoint, runIngestion doc other = .ok store' := by
  have hgen : ∀ other : List ChartDataPoint, runIngestion doc other = .ok store' := by
    intro other
    rw [runIngestion] at h ⊢
    generalize hp : processEntries doc = res at h ⊢
    cases res with
    | error e => simp [Except.map] at h
    | ok pts =>
      simp only [Except.map, deleteAll_eq_nil, List.nil_append] at h ⊢
      exact h
  exact ⟨hgen store', hgen⟩

theorem C8_witness :
    runIngestion
        [⟨some ⟨[⟨newDateTag, some "2025-01-02T00:00:00"⟩,
                 ⟨"\x7b" ++ dNamespace ++ "\x7dBC_1MONTH", some "4.20"⟩]⟩⟩]
        [⟨"2025-01-02T00:00:00", "1m", mkRat 420 100⟩]
      = .ok [⟨"2025-01-02T00:00:00", "1m", mkRat 420 100⟩] ∧
    ∀ other : List ChartDataPoint,
      runIngestion
          [⟨some ⟨[⟨newDateTag, some "2025-01-02T00:00:00"⟩,
                   ⟨"\x7b" ++ dNamespace ++ "\x7dBC_1MONTH", some "4.20"⟩]⟩⟩]
          other
        = .ok [⟨"2025-01-02T00:00:00", "1m", mkRat 420 100⟩] :=
  C8_ingestion_replaces_not_appends _ [⟨"x", "y", 1⟩] _ (by decide)

/-! ## C3: field-level behaviour of the Document Parser -/

theorem dictInsert_mem_self (m : List (String × Option ℚ)) (k : String)
    (v : Option ℚ) : (k, v) ∈ dictInsert m k v := by
  rw [dictInsert]
  split
  · next h =>
    rw [List.any_eq_true] at h
    obtain ⟨p, hp, hk⟩ := h
    rw [List.mem_map]
    refine ⟨p, hp, ?_⟩
    rw [if_pos (by exact of_decide_eq_true hk)]
  · simp

theorem dictInsert_mem_preserve {m : List (String × Option ℚ)} {k : String}
    {v : Option ℚ} (k' : String) (v' : Option ℚ) (hmem : (k, v) ∈ m)
    (hne : k ≠ k') : (k, v) ∈ dictInsert m k' v' := by
  rw [dictInsert]
  split
  · rw [List.mem_map]
    refine ⟨(k, v), hmem, ?_⟩
    rw [if_neg (by simpa using hne)]
  · exact List.mem_append_left _ hmem

theorem extractBCValues_ok_preserve :
    ∀ (fs : List XmlField) (acc m : List (String × Option ℚ)),
      extractBCValues fs acc = .ok m →
      ∀ k v, (k, v) ∈ acc →
        (∀ f ∈ fs, isBCTag f.tag = true → stripNamespaceTag f.tag ≠ k) →
        (k, v) ∈ m := by
  intro fs
  induction fs with
  | nil =>
    intro acc m h k v hkv _
    rw [extractBCValues] at h
    cases h
    exact hkv
  | cons f rest ih =>
    intro acc m h k v hkv hnames
    obtain ⟨tag, text⟩ := f
    have hnames' : ∀ g ∈ rest, isBCTag g.tag = true → stripNamespaceTag g.tag ≠ k :=
      fun g hg => hnames g (List.mem_cons_of_mem _ hg)
    rcases text with _ | t
    · simp only [extractBCValues] at h
      by_cases hbc : isBCTag tag = true
      · have hne : stripNamespaceTag tag ≠ k :=
          hnames ⟨tag, none⟩ (List.mem_cons_self _ _) hbc
        rw [if_pos hbc] at h
        exact ih _ _ h k v (dictInsert_mem_preserve _ _ hkv (Ne.symm hne)) hnames'
      · rw [if_neg hbc] at h
        exact ih _ _ h k v hkv hnames'
    · simp only [extractBCValues] at h
      by_cases hbc : isBCTag tag = true
      · have hne : stripNamespaceTag tag ≠ k :=
          hnames ⟨tag, some t⟩ (List.mem_cons_self _ _) hbc
        rw [if_pos hbc] at h
        by_cases hne' : t ≠ ""
        · rw [if_pos hne'] at h
          rcases hpf : parseFloat? t.data with _ | q
          · rw [hpf] at h; cases h
          · rw [hpf] at h
            exact ih _ _ h k v (dictInsert_mem_preserve _ _ hkv (Ne.symm hne)) hnames'
        · rw [if_neg hne'] at h
          exact ih _ _ h k v (dictInsert_mem_preserve _ _ hkv (Ne.symm hne)) hnames'
      · rw [if_neg hbc] at h
        exact ih _ _ h k v hkv hnames'

theorem extractBCValues_error_iff :
    ∀ (fs : List XmlField) (acc : List (String × Option ℚ)),
      extractBCValues fs acc = .error .valueError ↔
        ∃ f ∈ fs, isBCTag f.tag = true ∧
          ∃ t, f.text = some t ∧ t ≠ "" ∧ parseFloat? t.data = none := by
  intro fs
  induction fs with
  | nil =>
    intro acc
    rw [extractBCValues]
    simp
  | cons f rest ih =>
    intro acc
    obtain ⟨tag, text⟩ := f
    rcases text with _ | t
    · simp only [extractBCValues]
      by_cases hbc : isBCTag tag = true
      · rw [if_pos hbc, ih]
        constructor
        · rintro ⟨g, hg, hprops⟩
          exact ⟨g, List.mem_cons_of_mem _ hg, hprops⟩
        · rintro ⟨g, hg, hbcg, t, ht, hne, hpf⟩
          rcases List.mem_cons.mp hg with h | h
          · subst h; cases ht
          · exact ⟨g, h, hbcg, t, ht, hne, hpf⟩
      · rw [if_neg hbc, ih]
        constructor
        · rintro ⟨g, hg, hprops⟩
          exact ⟨g, List.mem_cons_of_mem _ hg, hprops⟩
        · rintro ⟨g, hg, hbcg, hprops⟩
          rcases List.mem_cons.mp hg with h | h
          · subst h; exact absurd hbcg hbc
          · exact ⟨g, h, hbcg, hprops⟩
    · simp only [extractBCValues]
      by_cases hbc : isBCTag tag = true
      · rw [if_pos hbc]
        by_cases hne' : t ≠ ""
        · rw [if_pos hne']
          rcases hpf : parseFloat? t.data with _ | q
          · simp only [true_iff]
            exact ⟨⟨tag, some t⟩, by simp, hbc, t, rfl, hne', hpf⟩
          · rw [ih]
            constructor
            · rintro ⟨g, hg, hprops⟩
              exact ⟨g, List.mem_cons_of_mem _ hg, hprops⟩
            · rintro ⟨g, hg, hbcg, t', ht', hne'', hpf'⟩
              rcases List.mem_cons.mp hg with h | h
              · subst h
                cases ht'
                rw [hpf] at hpf'
                cases hpf'
              · exact ⟨g, h, hbcg, t', ht', hne'', hpf'⟩
        · rw [if_neg hne', ih]
          constructor
          · rintro ⟨g, hg, hprops⟩
            exact ⟨g, List.mem_cons_of_mem _ hg, hprops⟩
          · rintro ⟨g, hg, hbcg, t', ht', hne'', hpf'⟩
            rcases List.mem_cons.mp hg with h | h
            · subst h
              cases ht'
              simp at hne'
              exact absurd hne' hne''
            · exact ⟨g, h, hbcg, t', ht', hne'', hpf'⟩
      · rw [if_neg hbc, ih]
        constructor
        · rintro ⟨g, hg, hprops⟩
          exact ⟨g, List.mem_cons_of_mem _ hg, hprops⟩
        · rintro ⟨g, hg, hbcg, hprops⟩
          rcases List.mem_cons.mp hg with h | h
          · subst h; exact absurd hbcg hbc
          · exact ⟨g, h, hbcg, hprops⟩

theorem extractBCValues_ok_mem :
    ∀ (fs : List XmlField) (acc m : List (String × Option ℚ)),
      extractBCValues fs acc = .ok m →
      ((fs.filter fun f => isBCTag f.tag).map fun f => stripNamespaceTag f.tag).Nodup →
      ∀ f ∈ fs, isBCTag f.tag = true →
        (f.text = none → (stripNamespaceTag f.tag, none) ∈ m) ∧
        (f.text = some "" → (stripNamespaceTag f.tag, none) ∈ m) ∧
        (∀ t q, f.text = some t → t ≠ "" → parseFloat? t.data = some q →
          (stripNamespaceTag f.tag, some q) ∈ m) := by
  intro fs
  induction fs with
  | nil => intro acc m _ _ f hf; cases hf
  | cons f₀ rest ih =>
    intro acc m h hnd f hf hbc
    obtain ⟨tag, text⟩ := f₀
    by_cases hbc₀ : isBCTag tag = true
    · have hfilter :
          (List.filter (fun f => isBCTag f.tag) (⟨tag, text⟩ :: rest)) =
            ⟨tag, text⟩ :: List.filter (fun f => isBCTag f.tag) rest :=
        List.filter_cons_of_pos hbc₀
      rw [hfilter, List.map_cons, List.nodup_cons] at hnd
      obtain ⟨hnotin, hnd'⟩ := hnd
      have hother : ∀ g ∈ rest, isBCTag g.tag = true →
          stripNamespaceTag g.tag ≠ stripNamespaceTag tag := by
        intro g hg hbcg heq
        exact hnotin (by
          rw [List.mem_map]
          exact ⟨g, List.mem_filter.mpr ⟨hg, hbcg⟩, heq⟩)
      rcases text with _ | t
      · simp only [extractBCValues, if_pos hbc₀] at h
        rcases List.mem_cons.mp hf with hfeq | hfrest
        · subst hfeq
          refine ⟨fun _ => ?_, fun habs => ?_, fun t q ht htne hpf => ?_⟩
          · exact extractBCValues_ok_preserve rest _ m h _ _
              (dictInsert_mem_self acc _ none) hother
          · cases habs
          · cases ht
        · exact ih _ m h hnd' f hfrest hbc
      · simp only [extractBCValues, if_pos hbc₀] at h
        by_cases hte : t ≠ ""
        · rw [if_pos hte] at h
          rcases hpf : parseFloat? t.data with _ | q₀
          · rw [hpf] at h; cases h
          · rw [hpf] at h
            rcases List.mem_cons.mp hf with hfeq | hfrest
            · subst hfeq
              refine ⟨fun habs => ?_, fun habs => ?_, fun t' q' ht' htne hpf' => ?_⟩
              · cases habs
              · cases habs; exact absurd rfl hte
              · cases ht'
                rw [hpf] at hpf'
                cases hpf'
                exact extractBCValues_ok_preserve rest _ m h _ _
                  (dictInsert_mem_self acc _ (some q₀)) hother
            · exact ih _ m h hnd' f hfrest hbc
        · rw [if_neg hte] at h
          simp only [ne_eq, not_not] at hte
          subst hte
          rcases List.mem_cons.mp hf with hfeq | hfrest
          · subst hfeq
            refine ⟨fun habs => ?_, fun _ => ?_, fun t' q' ht' htne _ => ?_⟩
            · cases habs
            · exact extractBCValues_ok_preserve rest _ m h _ _
                (dictInsert_mem_self acc _ none) hother
            · cases ht'; exact absurd rfl htne
          · exact ih _ m h hnd' f hfrest hbc
    · have hfilter :
          (List.filter (fun f => isBCTag f.tag) (⟨tag, text⟩ :: rest)) =
            List.filter (fun f => isBCTag f.tag) rest :=
        List.filter_cons_of_neg (by simpa using hbc₀)
      rw [hfilter] at hnd
      rcases text with _ | t
      · simp only [extractBCValues, if_neg hbc₀] at h
        rcases List.mem_cons.mp hf with hfeq | hfrest
        · subst hfeq; exact absurd hbc hbc₀
        · exact ih _ m h hnd f hfrest hbc
      · simp only [extractBCValues, if_neg hbc₀] at h
        rcases List.mem_cons.mp hf with hfeq | hfrest
        · subst hfeq; exact absurd hbc hbc₀
        · exact ih _ m h hnd f hfrest hbc

/-- C3 (corrected): a field whose text content is absent or empty
yields null for that field; but a field with non-empty, non-numeric
text raises `ValueError` and aborts the whole ingestion run — it is
not converted to null, contrary to the claim.  The extraction fails
exactly when some `BC_` field has non-empty unparseable text. -/
theorem C3_field_parsing_behaviour (fs : List XmlField) :
    (∀ acc, extractBCValues fs acc = .error .valueError ↔
      ∃ f ∈ fs, isBCTag f.tag = true ∧
        ∃ t, f.text = some t ∧ t ≠ "" ∧ parseFloat? t.data = none) ∧
    (∀ m, extractBCValues fs [] = .ok m →
      ((fs.filter fun f => isBCTag f.tag).map fun f => stripNamespaceTag f.tag).Nodup →
      ∀ f ∈ fs, isBCTag f.tag = true →
        ((f.text = none ∨ f.text = some "") → (stripNamespaceTag f.tag, none) ∈ m) ∧
        (∀ t q, f.text = some t → t ≠ "" → parseFloat? t.data = some q →
          (stripNamespaceTag f.tag, some q) ∈ m)) := by
  refine ⟨fun acc => extractBCValues_error_iff fs acc, fun m h hnd f hf hbc => ?_⟩
  obtain ⟨h1, h2, h3⟩ := extractBCValues_ok_mem fs [] m h hnd f hf hbc
  exact ⟨fun hcase => hcase.elim h1 h2, h3⟩

theorem C3_witness :
    (extractBCValues
        [⟨"\x7bhttp://schemas.microsoft.com/ado/2007/08/dataservices\x7dBC_1MONTH", some "4.20"⟩,
         ⟨"\x7bhttp://schemas.microsoft.com/ado/2007/08/dataservices\x7dBC_10YEAR", none⟩]
        [] = .error .valueError ↔
      ∃ f ∈ [(⟨"\x7bhttp://schemas.microsoft.com/ado/2007/08/dataservices\x7dBC_1MONTH",
                some "4.20"⟩ : XmlField),
             ⟨"\x7bhttp://schemas.microsoft.com/ado/2007/08/dataservices\x7dBC_10YEAR", none⟩],
        isBCTag f.tag = true ∧
          ∃ t, f.text = some t ∧ t ≠ "" ∧ parseFloat? t.data = none) ∧
    ("BC_10YEAR", (none : Option ℚ)) ∈
      [("BC_1MONTH", some (mkRat 420 100)), ("BC_10YEAR", (none : Option ℚ))] :=
  ⟨(C3_field_parsing_behaviour
      [⟨"\x7bhttp://schemas.microsoft.com/ado/2007/08/dataservices\x7dBC_1MONTH", some "4.20"⟩,
       ⟨"\x7bhttp://schemas.microsoft.com/ado/2007/08/dataservices\x7dBC_10YEAR", none⟩]).1 [],
   (((C3_field_parsing_behaviour
      [⟨"\x7bhttp://schemas.microsoft.com/ado/2007/08/dataservices\x7dBC_1MONTH", some "4.20"⟩,
       ⟨"\x7bhttp://schemas.microsoft.com/ado/2007/08/dataservices\x7dBC_10YEAR", none⟩]).2
       [("BC_1MONTH", some (mkRat 420 100)), ("BC_10YEAR", none)]
       (by decide) (by decide)
       ⟨"\x7bhttp://schemas.microsoft.com/ado/2007/08/dataservices\x7dBC_10YEAR", none⟩
       (by decide) (by decide)).1 (Or.inl rfl))⟩

/-- C3 counterexample: a document whose only defect is a single field
with non-numeric text (`"abc"`) makes the whole ingestion run fail with
the `float()` `ValueError`; the claim that an individual malformed
field never aborts parsing is false. -/
theorem C3_counterexample :
    extractBCValues
        [⟨"\x7bhttp://schemas.microsoft.com/ado/2007/08/dataservices\x7dBC_1MONTH",
          some "abc"⟩] []
      = .error .valueError ∧
    runIngestion
        [⟨some ⟨[⟨newDateTag, some "2025-01-02T00:00:00"⟩,
                 ⟨"\x7bhttp://schemas.microsoft.com/ado/2007/08/dataservices\x7dBC_1MONTH",
                  some "abc"⟩]⟩⟩]
        [] = .error .valueError := by
  constructor
  · decide
  · decide

/-- C2: `create_order` validates in a fixed order with first failure
winning — invalid term (`ValidationError`), then quantity outside
`(0, 10_000_000]` (`ValidationError`), then empty Store (`NoDataError`),
then term absent from the latest date's points (`UnknownTermError`) —
and no rejection changes the ledger.  Boundary: quantity `0` and
`10_000_000.000001` are rejected, `10_000_000` exactly is accepted. -/
theorem C2_create_order_validation
    (input : OrderCreate) (store : List ChartDataPoint) (orders : List Order)
    (now : Nat) :
    (input.term ∉ TERM_SET →
      create_order input store orders now = (.error .validation, orders)) ∧
    (input.term ∈ TERM_SET → (input.quantity ≤ 0 ∨ input.quantity > 10000000) →
      create_order input store orders now = (.error .validation, orders)) ∧
    (input.term ∈ TERM_SET → 0 < input.quantity → input.quantity ≤ 10000000 →
      store = [] →
      create_order input store orders now = (.error .noData, orders)) ∧
    (input.term ∈ TERM_SET → 0 < input.quantity → input.quantity ≤ 10000000 →
      ∀ rec, latestRecord store = some rec →
        (∀ p ∈ store, p.date = rec.date → p.term ≠ input.term) →
        create_order input store orders now = (.error .unknownTerm, orders)) ∧
    create_order ⟨"10Y", 0⟩ [⟨"2025-09-18", "10Y", 4⟩] [] 0
      = (.error .validation, []) ∧
    create_order ⟨"10Y", 10000000 + 1/1000000⟩ [⟨"2025-09-18", "10Y", 4⟩] [] 0
      = (.error .validation, []) ∧
    create_order ⟨"10Y", 10000000⟩ [⟨"2025-09-18", "10Y", 4⟩] [] 0
      = (.ok ⟨"10Y", 4, 10000000, "2025-09-18", 0, "2035-09-18"⟩,
         [⟨"10Y", 4, 10000000, "2025-09-18", 0, "2035-09-18"⟩]) := by
  refine ⟨?_, ?_, ?_, ?_, by decide, ?_, by decide⟩
  · intro h
    rw [create_order, if_pos h]
  · intro h₁ h₂
    rw [create_order, if_neg (by simp [h₁]), if_pos h₂]
  · intro h₁ h₂ h₃ h₄
    subst h₄
    rw [create_order, if_neg (by simp [h₁]),
      if_neg (by push_neg; exact ⟨h₂, h₃⟩)]
    rfl
  · intro h₁ h₂ h₃ rec hrec habs
    have hfilter :
        store.filter (fun p => p.date = rec.date ∧ p.term = input.term) = [] := by
      rw [List.filter_eq_nil_iff]
      intro p hp
      simp only [decide_eq_true_eq, not_and]
      intro hdate
      exact habs p hp hdate
    rw [create_order, if_neg (by simp [h₁]),
      if_neg (by push_neg; exact ⟨h₂, h₃⟩)]
    split
    · next heq => rw [hrec] at heq; cases heq
    · next ldr heq =>
      rw [hrec] at heq
      cases heq
      split
      · rfl
      · next te heq2 =>
        rw [hfilter] at heq2
        cases heq2
  · rw [create_order, if_neg (by decide), if_pos (by norm_num)]

theorem C2_witness :
    create_order ⟨"9Y", 100⟩ [⟨"2025-09-18", "10Y", 4⟩] [] 3
      = (.error .validation, []) ∧
    create_order ⟨"2m", 100⟩ [⟨"2025-09-18", "10Y", 4⟩] [] 3
      = (.error .unknownTerm, []) :=
  ⟨(C2_create_order_validation ⟨"9Y", 100⟩ [⟨"2025-09-18", "10Y", 4⟩] [] 3).1
     (by decide),
   (C2_create_order_validation ⟨"2m", 100⟩ [⟨"2025-09-18", "10Y", 4⟩] [] 3).2.2.2.1
     (by decide) (by norm_num) (by norm_num) ⟨"2025-09-18", "10Y", 4⟩ (by decide)
     (by decide)⟩

/-- Dissection of a successful `create_order` run. -/
theorem create_order_ok_spec
    {input : OrderCreate} {store : List ChartDataPoint} {orders : List Order}
    {now : Nat} {o : Order} {orders' : List Order}
    (h : create_order input store orders now = (.ok o, orders')) :
    input.term ∈ TERM_SET ∧ 0 < input.quantity ∧ input.quantity ≤ 10000000 ∧
    orders' = orders ++ [o] ∧
    ∃ rec, latestRecord store = some rec ∧
      ∃ te, te ∈ store ∧ te.date = rec.date ∧ te.term = input.term ∧
        ∃ mat,
          calculate_maturity_date ⟨rec.date.data.takeWhile (· ≠ 'T')⟩ input.term
            = some mat ∧
          o = ⟨input.term, te.yield_value, input.quantity,
               ⟨rec.date.data.takeWhile (· ≠ 'T')⟩, now, mat⟩ := by
  rw [create_order] at h
  split at h
  · simp at h
  next hterm =>
  split at h
  · simp at h
  next hqty =>
  split at h
  · simp at h
  next rec hrec =>
  split at h
  · simp at h
  next te hte =>
  dsimp only at h
  split at h
  · simp at h
  next mat hmat =>
  rw [Prod.mk.injEq] at h
  obtain ⟨ho, horders⟩ := h
  rw [Except.ok.injEq] at ho
  subst ho
  push_neg at hqty
  have hmemte : te ∈ store.filter (fun p => p.date = rec.date ∧ p.term = input.term) := by
    apply List.mem_of_mem_head?
    rw [hte]
    rfl
  rw [List.mem_filter] at hmemte
  obtain ⟨hte_store, hte_props⟩ := hmemte
  rw [decide_eq_true_eq] at hte_props
  refine ⟨not_not.mp hterm, hqty.1, hqty.2, horders.symm, rec, hrec, te,
    hte_store, hte_props.1, hte_props.2, mat, hmat, rfl⟩

/-- C4: for every successful `create_order` call, the stored Order's
`yield_value` equals the market yield recorded in the Store for the
requested term on the latest date (the request carries no yield field —
any client value is ignored by construction), and `issue_date` is the
latest date with any time-of-day suffix stripped
(`date.split('T')[0]`). -/
theorem C4_order_yield_is_market_yield
    (input : OrderCreate) (store : List ChartDataPoint) (orders : List Order)
    (now : Nat) (o : Order) (orders' : List Order)
    (h : create_order input store orders now = (.ok o, orders')) :
    ∃ rec, latestRecord store = some rec ∧ rec ∈ store ∧
      (∀ p ∈ store, dateLt rec.date p.date = false) ∧
      o.issue_date = ⟨rec.date.data.takeWhile (· ≠ 'T')⟩ ∧
      ∃ pt, pt ∈ store ∧ pt.date = rec.date ∧ pt.term = input.term ∧
        o.yield_value = pt.yield_value := by
  obtain ⟨-, -, -, -, rec, hrec, te, hte_store, hte_date, hte_term, mat, -, ho⟩ :=
    create_order_ok_spec h
  obtain ⟨hmem, hmax⟩ := latestRecord_spec hrec
  subst ho
  exact ⟨rec, hrec, hmem, hmax, rfl, te, hte_store, hte_date, hte_term, rfl⟩

theorem C4_witness :
    ∃ rec, latestRecord
          [(⟨"2025-09-18T00:00:00", "10Y", 411/100⟩ : ChartDataPoint)]
        = some rec ∧
      rec ∈ [(⟨"2025-09-18T00:00:00", "10Y", 411/100⟩ : ChartDataPoint)] ∧
      (∀ p ∈ [(⟨"2025-09-18T00:00:00", "10Y", 411/100⟩ : ChartDataPoint)],
        dateLt rec.date p.date = false) ∧
      (⟨"10Y", 411/100, 25000, "2025-09-18", 7, "2035-09-18"⟩ : Order).issue_date
        = ⟨rec.date.data.takeWhile (· ≠ 'T')⟩ ∧
      ∃ pt, pt ∈ [(⟨"2025-09-18T00:00:00", "10Y", 411/100⟩ : ChartDataPoint)] ∧
        pt.date = rec.date ∧ pt.term = "10Y" ∧
        (⟨"10Y", 411/100, 25000, "2025-09-18", 7, "2035-09-18"⟩ : Order).yield_value
          = pt.yield_value :=
  C4_order_yield_is_market_yield ⟨"10Y", 25000⟩
    [⟨"2025-09-18T00:00:00", "10Y", 411/100⟩] [] 7
    ⟨"10Y", 411/100, 25000, "2025-09-18", 7, "2035-09-18"⟩
    [⟨"10Y", 411/100, 25000, "2025-09-18", 7, "2035-09-18"⟩] (by rfl)

/-- C9: an Order created from a TERM_SET term and a quantity in
`(0, 10_000_000]` is retrievable through the orders-list operation with
identical term and quantity and a `maturity_date` deterministically
derived from its `issue_date` and term; the list is ordered newest
first (`purchase_timestamp` descending), so the fresh order is its
head. -/
theorem C9_order_roundtrip
    (input : OrderCreate) (store : List ChartDataPoint) (orders : List Order)
    (now : Nat) (o : Order) (orders' : List Order)
    (h : create_order input store orders now = (.ok o, orders'))
    (hfresh : ∀ p ∈ orders, p.purchase_timestamp < now) :
    input.term ∈ TERM_SET ∧ 0 < input.quantity ∧ input.quantity ≤ 10000000 ∧
    o.term = input.term ∧ o.quantity = input.quantity ∧
    calculate_maturity_date o.issue_date o.term = some o.maturity_date ∧
    orders' = orders ++ [o] ∧
    o ∈ get_orders orders' 0 orders'.length ∧
    (get_orders orders' 0 orders'.length).head? = some o ∧
    List.Pairwise (fun a b => b.purchase_timestamp ≤ a.purchase_timestamp)
      (get_orders orders' 0 orders'.length) := by
  obtain ⟨hterm, hq1, hq2, horders, rec, hrec, te, hte_store, hte_date, hte_term,
    mat, hmat, ho⟩ := create_order_ok_spec h
  have hoterm : o.term = input.term := by rw [ho]
  have hoqty : o.quantity = input.quantity := by rw [ho]
  have hots : o.purchase_timestamp = now := by rw [ho]
  have homat : calculate_maturity_date o.issue_date o.term = some o.maturity_date := by
    rw [ho]
    exact hmat
  have htrans : ∀ a b c : Order,
      (fun a b : Order => decide (b.purchase_timestamp ≤ a.purchase_timestamp)) a b = true →
      (fun a b : Order => decide (b.purchase_timestamp ≤ a.purchase_timestamp)) b c = true →
      (fun a b : Order => decide (b.purchase_timestamp ≤ a.purchase_timestamp)) a c = true := by
    intro a b c hab hbc
    simp only [decide_eq_true_eq] at hab hbc ⊢
    omega
  have htotal : ∀ a b : Order,
      ((fun a b : Order => decide (b.purchase_timestamp ≤ a.purchase_timestamp)) a b ||
       (fun a b : Order => decide (b.purchase_timestamp ≤ a.purchase_timestamp)) b a) = true := by
    intro a b
    simp only [Bool.or_eq_true, decide_eq_true_eq]
    omega
  have hget : get_orders orders' 0 orders'.length =
      orders'.mergeSort
        (fun a b : Order => decide (b.purchase_timestamp ≤ a.purchase_timestamp)) := by
    rw [get_orders, List.drop_zero,
      ← (List.mergeSort_perm orders' _).length_eq, List.take_length]
  have hmem : o ∈ orders'.mergeSort
      (fun a b : Order => decide (b.purchase_timestamp ≤ a.purchase_timestamp)) := by
    rw [List.mem_mergeSort, horders]
    exact List.mem_append_right _ (by simp)
  have hsorted := List.sorted_mergeSort htrans htotal orders'
  have hhead : (orders'.mergeSort
      (fun a b : Order => decide (b.purchase_timestamp ≤ a.purchase_timestamp))).head?
      = some o := by
    rcases hL : orders'.mergeSort
        (fun a b : Order => decide (b.purchase_timestamp ≤ a.purchase_timestamp))
      with _ | ⟨hd, tl⟩
    · rw [hL] at hmem; cases hmem
    · have hhd_mem : hd ∈ orders' := by
        have hmem2 : hd ∈ orders'.mergeSort
            (fun a b : Order => decide (b.purchase_timestamp ≤ a.purchase_timestamp)) := by
          rw [hL]
          simp
        exact List.mem_mergeSort.mp hmem2
      rw [horders] at hhd_mem
      rcases List.mem_append.mp hhd_mem with hin | hin
      · exfalso
        have hlt : hd.purchase_timestamp < now := hfresh hd hin
        rw [hL] at hmem hsorted
        rcases List.mem_cons.mp hmem with hoeq | hotl
        · rw [← hoeq] at hlt
          omega
        · have := (List.pairwise_cons.mp hsorted).1 o hotl
          simp only [decide_eq_true_eq] at this
          omega
      · have : hd = o := by simpa using hin
        rw [this]
        rfl
  refine ⟨hterm, hq1, hq2, hoterm, hoqty, homat, horders, ?_, ?_, ?_⟩
  · rw [hget]; exact hmem
  · rw [hget]; exact hhead
  · rw [hget]
    exact hsorted.imp fun hab => of_decide_eq_true hab

theorem C9_witness :
    "10Y" ∈ TERM_SET ∧ (0:ℚ) < 25000 ∧ (25000:ℚ) ≤ 10000000 ∧
    (⟨"10Y", 4, 25000, "2025-09-18", 7, "2035-09-18"⟩ : Order).term = "10Y" ∧
    (⟨"10Y", 4, 25000, "2025-09-18", 7, "2035-09-18"⟩ : Order).quantity = 25000 ∧
    calculate_maturity_date
        (⟨"10Y", 4, 25000, "2025-09-18", 7, "2035-09-18"⟩ : Order).issue_date
        (⟨"10Y", 4, 25000, "2025-09-18", 7, "2035-09-18"⟩ : Order).term
      = some (⟨"10Y", 4, 25000, "2025-09-18", 7, "2035-09-18"⟩ : Order).maturity_date ∧
    [(⟨"10Y", 4, 25000, "2025-09-18", 7, "2035-09-18"⟩ : Order)]
      = [] ++ [⟨"10Y", 4, 25000, "2025-09-18", 7, "2035-09-18"⟩] ∧
    (⟨"10Y", 4, 25000, "2025-09-18", 7, "2035-09-18"⟩ : Order)
      ∈ get_orders [⟨"10Y", 4, 25000, "2025-09-18", 7, "2035-09-18"⟩] 0
          [(⟨"10Y", 4, 25000, "2025-09-18", 7, "2035-09-18"⟩ : Order)].length ∧
    (get_orders [⟨"10Y", 4, 25000, "2025-09-18", 7, "2035-09-18"⟩] 0
        [(⟨"10Y", 4, 25000, "2025-09-18", 7, "2035-09-18"⟩ : Order)].length).head?
      = some ⟨"10Y", 4, 25000, "2025-09-18", 7, "2035-09-18"⟩ ∧
    List.Pairwise (fun a b : Order => b.purchase_timestamp ≤ a.purchase_timestamp)
      (get_orders [⟨"10Y", 4, 25000, "2025-09-18", 7, "2035-09-18"⟩] 0
        [(⟨"10Y", 4, 25000, "2025-09-18", 7, "2035-09-18"⟩ : Order)].length) :=
  C9_order_roundtrip ⟨"10Y", 25000⟩ [⟨"2025-09-18T00:00:00", "10Y", 4⟩] [] 7
    ⟨"10Y", 4, 25000, "2025-09-18", 7, "2035-09-18"⟩
    [⟨"10Y", 4, 25000, "2025-09-18", 7, "2035-09-18"⟩] (by rfl)
    (by intro p hp; cases hp)

/-! ## C7: canonical sorting of curve responses -/

theorem sortChartData_perm (l : List (String × ℚ)) : (sortChartData l).Perm l :=
  List.mergeSort_perm l _

theorem sortKey_le_trans :
    ∀ a b c : String × ℚ,
      (fun a b : String × ℚ => decide (sortKey a.1 ≤ sortKey b.1)) a b = true →
      (fun a b : String × ℚ => decide (sortKey a.1 ≤ sortKey b.1)) b c = true →
      (fun a b : String × ℚ => decide (sortKey a.1 ≤ sortKey b.1)) a c = true := by
  intro a b c hab hbc
  simp only [decide_eq_true_eq] at hab hbc ⊢
  omega

theorem sortKey_le_total :
    ∀ a b : String × ℚ,
      ((fun a b : String × ℚ => decide (sortKey a.1 ≤ sortKey b.1)) a b ||
       (fun a b : String × ℚ => decide (sortKey a.1 ≤ sortKey b.1)) b a) = true := by
  intro a b
  simp only [Bool.or_eq_true, decide_eq_true_eq]
  omega

theorem sortChartData_sorted (l : List (String × ℚ)) :
    List.Pairwise (fun a b => sortKey a.1 ≤ sortKey b.1) (sortChartData l) :=
  (List.sorted_mergeSort sortKey_le_trans sortKey_le_total l).imp
    fun hab => of_decide_eq_true hab

theorem sortChartData_unknown_stable (l : List (String × ℚ)) :
    (sortChartData l).filter (fun x => decide (x.1 ∉ TERM_SET)) =
      l.filter (fun x => decide (x.1 ∉ TERM_SET)) := by
  have hpw : List.Pairwise
      (fun a b : String × ℚ => (fun a b : String × ℚ =>
        decide (sortKey a.1 ≤ sortKey b.1)) a b = true)
      (l.filter (fun x => decide (x.1 ∉ TERM_SET))) := by
    have hkey : ∀ x ∈ l.filter (fun x : String × ℚ => decide (x.1 ∉ TERM_SET)),
        sortKey x.1 = 999 := by
      intro x hx
      have hu := (List.mem_filter.mp hx).2
      rw [decide_eq_true_eq] at hu
      rw [sortKey, if_neg hu]
    apply List.pairwise_of_forall_mem_list
    intro a ha b hb
    rw [decide_eq_true_eq, hkey a ha, hkey b hb]
  have hsub : (l.filter (fun x => decide (x.1 ∉ TERM_SET))).Sublist (sortChartData l) :=
    List.sublist_mergeSort sortKey_le_trans sortKey_le_total hpw
      (List.filter_sublist l)
  have hsub2 : (l.filter (fun x => decide (x.1 ∉ TERM_SET))).Sublist
      ((sortChartData l).filter (fun x => decide (x.1 ∉ TERM_SET))) := by
    have hself : (l.filter (fun x => decide (x.1 ∉ TERM_SET))).filter
        (fun x => decide (x.1 ∉ TERM_SET)) =
        l.filter (fun x => decide (x.1 ∉ TERM_SET)) :=
      List.filter_eq_self.mpr fun a ha => (List.mem_filter.mp ha).2
    rw [← hself]
    exact List.Sublist.filter _ hsub
  have hlen : ((sortChartData l).filter (fun x => decide (x.1 ∉ TERM_SET))).length =
      (l.filter (fun x => decide (x.1 ∉ TERM_SET))).length := by
    rw [← List.countP_eq_length_filter, ← List.countP_eq_length_filter]
    exact (sortChartData_perm l).countP_eq _
  exact (hsub2.eq_of_length hlen.symm).symm

/-- C7: for every non-empty Store, the latest-curve query and the
by-date query return the matching CurvePoints sorted by the fixed
canonical TERM_SET order, any term outside that list sorting last
(`sortKey` 999 exceeds every canonical index) while keeping its
relative order among unknowns. -/
theorem C7_curves_canonically_sorted (store : List ChartDataPoint) (date : String) :
    (store ≠ [] →
      ∃ ld chart, read_root store = .ok ld chart ∧
        chart.Perm ((store.filter fun p => p.date = ld).map
          fun p => (p.term, p.yield_value)) ∧
        List.Pairwise (fun a b => sortKey a.1 ≤ sortKey b.1) chart ∧
        chart.filter (fun x => decide (x.1 ∉ TERM_SET)) =
          ((store.filter fun p => p.date = ld).map
            fun p => (p.term, p.yield_value)).filter
              (fun x => decide (x.1 ∉ TERM_SET))) ∧
    ((store.filter fun p => p.date = date) ≠ [] →
      ∃ chart, read_treasury_by_date date store = .ok date chart ∧
        chart.Perm ((store.filter fun p => p.date = date).map
          fun p => (p.term, p.yield_value)) ∧
        List.Pairwise (fun a b => sortKey a.1 ≤ sortKey b.1) chart ∧
        chart.filter (fun x => decide (x.1 ∉ TERM_SET)) =
          ((store.filter fun p => p.date = date).map
            fun p => (p.term, p.yield_value)).filter
              (fun x => decide (x.1 ∉ TERM_SET))) := by
  constructor
  · intro hne
    rcases hrec : latestRecord store with _ | rec
    · exact absurd ((latestRecord_eq_none_iff store).mp hrec) hne
    · have hmem := (latestRecord_spec hrec).1
      have hpts : store.filter (fun p => p.date = rec.date) ≠ [] := by
        intro hnil
        have : rec ∈ store.filter (fun p => p.date = rec.date) :=
          List.mem_filter.mpr ⟨hmem, by simp⟩
        rw [hnil] at this
        cases this
      refine ⟨rec.date,
        sortChartData ((store.filter fun p => p.date = rec.date).map
          fun p => (p.term, p.yield_value)), ?_, sortChartData_perm _,
        sortChartData_sorted _, sortChartData_unknown_stable _⟩
      rw [read_root, hrec]
      dsimp only
      rw [if_neg hpts]
  · intro hne
    refine ⟨sortChartData ((store.filter fun p => p.date = date).map
        fun p => (p.term, p.yield_value)), ?_, sortChartData_perm _,
      sortChartData_sorted _, sortChartData_unknown_stable _⟩
    rw [read_treasury_by_date]
    rw [if_neg hne]

theorem C7_witness :
    ([(⟨"2025-01-02", "10Y", 4⟩ : ChartDataPoint)] ≠ [] ∧
      ∃ ld chart,
        read_root [(⟨"2025-01-02", "10Y", 4⟩ : ChartDataPoint)] = .ok ld chart ∧
        chart.Perm (([(⟨"2025-01-02", "10Y", 4⟩ : ChartDataPoint)].filter
          fun p => p.date = ld).map fun p => (p.term, p.yield_value)) ∧
        List.Pairwise (fun a b => sortKey a.1 ≤ sortKey b.1) chart ∧
        chart.filter (fun x => decide (x.1 ∉ TERM_SET)) =
          (([(⟨"2025-01-02", "10Y", 4⟩ : ChartDataPoint)].filter
            fun p => p.date = ld).map fun p => (p.term, p.yield_value)).filter
              (fun x => decide (x.1 ∉ TERM_SET))) :=
  ⟨by decide,
   (C7_curves_canonically_sorted [⟨"2025-01-02", "10Y", 4⟩] "2025-01-02").1
     (by decide)⟩

/-! ## C5 and C10: the maturity-date algorithm -/

theorem ratMulNat_eq (q : ℚ) (n : Nat) : ratMulNat q n = q * n := by
  rw [ratMulNat, Rat.mkRat_eq_div]
  push_cast
  rw [mul_comm (q.num : ℚ) (n : ℚ), mul_div_assoc, Rat.num_div_den, mul_comm]

theorem parseDate_valid {cs : List Char} {d : Date}
    (h : parseDate cs = some d) : isValidDate d = true := by
  rw [parseDate] at h
  split at h
  · split at h
    · dsimp only at h
      split at h
      · next hv => cases h; exact hv
      · cases h
    · cases h
  · cases h

/-- Modelled from the spec: the spec's maturity-date algorithm says a
month-denominated term adds `round(months * 30)` days.  This definition
follows the spec's words — it is `calculate_maturity_date` with
`round` in place of the code's `int` truncation — and is compared with
the source-translated `calculate_maturity_date` in the C5
counterexample. -/
def calculate_maturity_date_spec_round (issue_date term : String) : Option String :=
  (parseDate (removeAll "T00:00:00".data issue_date.data)).bind fun issue =>
    if endsWithChar 'm' term.data then
      (parseFloat? (removeAll ['m'] term.data)).bind fun months =>
        (addDays issue (round (ratMulNat months 30)).toNat).map formatDate
    else if endsWithChar 'Y' term.data then
      (parseNat? (removeAll ['Y'] term.data)).bind fun years =>
        (replaceYear issue (issue.year + years)).map formatDate
    else
      (replaceYear issue (issue.year + 1)).map formatDate

/-- C5 counterexample: for the month term `"1.52m"` the code adds
`int(1.52 * 30) = 45` days (truncation), not `round(1.52 * 30) = 46`
days as the claim states: from issue date 2025-01-01 the code returns
2025-02-15 while the claim's rounding algorithm gives 2025-02-16. -/
theorem C5_counterexample :
    calculate_maturity_date "2025-01-01" "1.52m" = some "2025-02-15" ∧
    calculate_maturity_date_spec_round "2025-01-01" "1.52m" = some "2025-02-16" ∧
    calculate_maturity_date "2025-01-01" "1.52m" ≠
      calculate_maturity_date_spec_round "2025-01-01" "1.52m" := by
  have h1 : parseDate (removeAll "T00:00:00".data "2025-01-01".data)
      = some ⟨2025, 1, 1⟩ := by decide
  have h2 : endsWithChar 'm' "1.52m".data = true := by decide
  have h3 : parseFloat? (removeAll ['m'] "1.52m".data) = some (mkRat 152 100) := by
    decide
  have h4 : round (ratMulNat (mkRat 152 100) 30) = 46 := by
    have hq : ratMulNat (mkRat 152 100) 30 = (228/5 : ℚ) := by
      rw [ratMulNat_eq, Rat.mkRat_eq_div]
      norm_num
    rw [hq, round_eq]
    norm_num
  have hspec : calculate_maturity_date_spec_round "2025-01-01" "1.52m"
      = some "2025-02-16" := by
    rw [calculate_maturity_date_spec_round, h1, Option.some_bind, if_pos h2, h3,
      Option.some_bind, h4]
    decide
  refine ⟨by decide, hspec, ?_⟩
  rw [hspec]
  decide

/-- C5 (corrected): the maturity-date computation adds
`int(months * 30)` days — truncation, which is the floor for the
non-negative month counts the parser accepts — not `round(months * 30)`;
year terms advance the calendar year keeping month/day (failing where
the resulting date does not exist, cf. C10); any other suffix advances
one year; and the 10Y scenario produces yield 4.11 with maturity
issue_date plus ten years. -/
theorem C5_maturity_algorithm (issue term : String) (d : Date)
    (hd : parseDate (removeAll "T00:00:00".data issue.data) = some d) :
    (∀ q : ℚ, endsWithChar 'm' term.data = true →
        parseFloat? (removeAll ['m'] term.data) = some q →
        calculate_maturity_date issue term
          = (addDays d ⌊q * 30⌋.toNat).map formatDate) ∧
    (∀ N : Nat, endsWithChar 'm' term.data = false →
        endsWithChar 'Y' term.data = true →
        parseNat? (removeAll ['Y'] term.data) = some N →
        calculate_maturity_date issue term
          = (replaceYear d (d.year + N)).map formatDate) ∧
    (endsWithChar 'm' term.data = false → endsWithChar 'Y' term.data = false →
        calculate_maturity_date issue term
          = (replaceYear d (d.year + 1)).map formatDate) ∧
    create_order ⟨"10Y", 25000⟩ [⟨"2025-09-18T00:00:00", "10Y", 411/100⟩] [] 7
      = (.ok ⟨"10Y", 411/100, 25000, "2025-09-18", 7, "2035-09-18"⟩,
         [⟨"10Y", 411/100, 25000, "2025-09-18", 7, "2035-09-18"⟩]) := by
  refine ⟨?_, ?_, ?_, by rfl⟩
  · intro q hm hq
    rw [calculate_maturity_date, hd, Option.some_bind, if_pos hm, hq,
      Option.some_bind, ratMulNat_eq]
    norm_num
  · intro N hm hY hN
    rw [calculate_maturity_date, hd, Option.some_bind, if_neg (by simp [hm]),
      if_pos hY, hN, Option.some_bind]
  · intro hm hY
    rw [calculate_maturity_date, hd, Option.some_bind, if_neg (by simp [hm]),
      if_neg (by simp [hY])]

theorem C5_witness :
    parseDate (removeAll "T00:00:00".data "2025-09-18".data)
      = some ⟨2025, 9, 18⟩ ∧
    endsWithChar 'm' "1.52m".data = true ∧
    parseFloat? (removeAll ['m'] "1.52m".data) = some (mkRat 152 100) ∧
    calculate_maturity_date "2025-09-18" "1.52m"
      = (addDays ⟨2025, 9, 18⟩ ⌊(mkRat 152 100) * 30⌋.toNat).map formatDate :=
  ⟨by decide, by decide, by decide,
   (C5_maturity_algorithm "2025-09-18" "1.52m" ⟨2025, 9, 18⟩ (by decide)).1
     (mkRat 152 100) (by decide) (by decide)⟩

theorem replaceYear_valid_eq (d : Date) (hv : isValidDate d = true) (y : Nat)
    (hy : 1 ≤ y) :
    replaceYear d y =
      if (d.month = 2 ∧ d.day = 29 ∧ isLeapYear y = false) ∨ 9999 < y then none
      else some ⟨y, d.month, d.day⟩ := by
  rw [isValidDate] at hv
  simp only [Bool.and_eq_true, decide_eq_true_eq] at hv
  obtain ⟨⟨⟨⟨⟨hy1, hy2⟩, hm1⟩, hm2⟩, hd1⟩, hd2⟩ := hv
  rw [replaceYear]
  by_cases hcond : (d.month = 2 ∧ d.day = 29 ∧ isLeapYear y = false) ∨ 9999 < y
  · rw [if_pos hcond, if_neg]
    rintro ⟨-, hle, hday⟩
    rcases hcond with ⟨hm, hd29, hleap⟩ | hbig
    · rw [hm, hd29, daysInMonth, if_pos rfl, hleap] at hday
      simp at hday
    · omega
  · rw [if_neg hcond, if_pos]
    push_neg at hcond
    refine ⟨hy, by omega, ?_⟩
    by_cases hmo : d.month = 2
    · have h29 : d.day ≤ 29 := by
        rw [hmo, daysInMonth, if_pos rfl] at hd2
        split at hd2 <;> omega
      rw [hmo, daysInMonth, if_pos rfl]
      by_cases hleap : isLeapYear y = true
      · rw [if_pos hleap]
        exact h29
      · rw [if_neg hleap]
        have hne : d.day ≠ 29 := by
          intro h29'
          have hfalse : isLeapYear y ≠ false := hcond.1 hmo h29'
          cases hb : isLeapYear y
          · exact hfalse hb
          · exact hleap hb
        omega
    · rw [daysInMonth, if_neg hmo]
      rw [daysInMonth, if_neg hmo] at hd2
      exact hd2

/-- C10 (corrected): for a year-denominated term the computation is
partial — it fails (`ValueError` of `datetime.replace`) exactly when
the issue date is February 29 and the target year is not a leap year,
or when the target year exceeds the calendar's supported range
(year 9999); elsewhere it totals to the issue date with the year
advanced and month/day unchanged. -/
theorem C10_year_replacement_partial (issue term : String) (d : Date) (N : Nat)
    (hd : parseDate (removeAll "T00:00:00".data issue.data) = some d)
    (hm : endsWithChar 'm' term.data = false)
    (hY : endsWithChar 'Y' term.data = true)
    (hN : parseNat? (removeAll ['Y'] term.data) = some N) :
    calculate_maturity_date issue term =
      if (d.month = 2 ∧ d.day = 29 ∧ isLeapYear (d.year + N) = false) ∨
          9999 < d.year + N then none
      else some (formatDate ⟨d.year + N, d.month, d.day⟩) := by
  have hv := parseDate_valid hd
  have hy1 : 1 ≤ d.year := by
    rw [isValidDate] at hv
    simp only [Bool.and_eq_true, decide_eq_true_eq] at hv
    omega
  rw [calculate_maturity_date, hd, Option.some_bind, if_neg (by simp [hm]),
    if_pos hY, hN, Option.some_bind,
    replaceYear_valid_eq d hv (d.year + N) (by omega)]
  by_cases hc : (d.month = 2 ∧ d.day = 29 ∧ isLeapYear (d.year + N) = false) ∨
      9999 < d.year + N
  · rw [if_pos hc, if_pos hc]
    rfl
  · rw [if_neg hc, if_neg hc]
    rfl

/-- C10 counterexample: the claim says every non-Feb-29 issue date
totals to the year-advanced date, but the code also fails when the
target year leaves Python's calendar: issue 9998-03-01 (March, not
February 29) with term `"2Y"` raises instead of producing a
year-10000 date. -/
theorem C10_counterexample :
    (⟨9998, 3, 1⟩ : Date).month ≠ 2 ∧
    parseDate "9998-03-01".data = some ⟨9998, 3, 1⟩ ∧
    isValidDate ⟨9998, 3, 1⟩ = true ∧
    calculate_maturity_date "9998-03-01" "2Y" = none :=
  ⟨by decide, by decide, by decide, by decide⟩

theorem C10_witness :
    calculate_maturity_date "2024-02-29" "1Y" =
      if ((2:Nat) = 2 ∧ (29:Nat) = 29 ∧ isLeapYear (2024 + 1) = false) ∨
          9999 < 2024 + 1 then none
      else some (formatDate ⟨2024 + 1, 2, 29⟩) :=
  C10_year_replacement_partial "2024-02-29" "1Y" ⟨2024, 2, 29⟩ 1
    (by decide) (by decide) (by decide) (by decide)

end YieldCurve
